import Mathlib

/-!
Shallow embedding of the Set card game server (main.py): the `GameRoom` game
engine (deck construction, field maintenance, triple validation, pick/scoring,
round progression, termination) and the `ServerState` session directory.

Python lists are Lean lists; `list.pop()` is `popLast` (remove from the tail);
`list.remove(x)` removes the first equal element and raises `ValueError` when
absent; dict access raises `KeyError` when the key is absent.  Exceptional
control flow is made explicit: `pick_set` returns a `PickResult` that is
either a normal `(matched, score)` pair or the exception that escapes, and the
returned `GameRoom` carries exactly the mutations performed before the raise.
`random.shuffle` is modelled by quantifying over permutations of the canonical
deck.
-/

namespace SetSrv

set_option maxRecDepth 10000

/-- A Set card: four ternary attributes plus the id assigned at deck build. -/
structure Card where
  id : Nat
  count : Nat
  shape : Nat
  fill : Nat
  color : Nat
deriving DecidableEq, Repr

/-- Python `list.pop()`: remove and return the last element, `none` on `[]`. -/
def popLast : List α → Option (α × List α)
  | [] => none
  | a :: t => some ((a :: t).getLast (by simp), (a :: t).dropLast)

/-- The card `_initialize_deck` creates at loop position `n` (color outermost,
then shape, fill, count; `card_id` increments from 0). -/
def cardOfId (n : Nat) : Card :=
  { id := n, color := n / 27 + 1, shape := n / 9 % 3 + 1,
    fill := n / 3 % 3 + 1, count := n % 3 + 1 }

/-- The canonical 81-card deck built by `_initialize_deck` before shuffling. -/
def initDeck : List Card := (List.range 81).map cardOfId

/-- The loop `for _ in range(n): if deck: field.append(deck.pop())`, shared by
`_deal_initial_cards` (n = 12) and `add_cards` (n = 3). -/
def dealN : Nat → List Card → List Card → List Card × List Card
  | 0, f, d => (f, d)
  | n + 1, f, d =>
    match popLast d with
    | some (c, d2) => dealN n (f ++ [c]) d2
    | none => dealN n f d

/-- One game room's state: `GameRoom.__init__` fields (players is the
insertion-ordered token-to-score dict). -/
structure GameRoom where
  game_id : Nat
  deck : List Card
  field : List Card
  players : List (String × Int)
  status : String
deriving DecidableEq, Repr

/-- `GameRoom.__init__(game_id)` given the result of `random.shuffle` on the
canonical deck: deal 12 cards from the deck tail into the field. -/
def mkRoom (gid : Nat) (shuffled : List Card) : GameRoom :=
  let fd := dealN 12 [] shuffled
  { game_id := gid, deck := fd.2, field := fd.1, players := [], status := "ongoing" }

/-- `GameRoom.add_player`: insert the token with score 0 unless present. -/
def add_player (r : GameRoom) (tok : String) : GameRoom :=
  if (r.players.map Prod.fst).contains tok then r
  else { r with players := r.players ++ [(tok, 0)] }

/-- `GameRoom.get_card_by_id`: first field card with the given id. -/
def get_card_by_id (r : GameRoom) (cid : Nat) : Option Card :=
  r.field.find? (fun c => c.id == cid)

/-- The inner `check_property` of `is_valid_set`. -/
def check_property (v1 v2 v3 : Nat) : Bool :=
  (v1 == v2 && v2 == v3) || (v1 != v2 && v1 != v3 && v2 != v3)

/-- `GameRoom.is_valid_set`. -/
def is_valid_set (c1 c2 c3 : Card) : Bool :=
  check_property c1.color c2.color c3.color &&
  check_property c1.shape c2.shape c3.shape &&
  check_property c1.fill c2.fill c3.fill &&
  check_property c1.count c2.count c3.count

/-- Dict read `self.players[tok]`: `none` models the `KeyError` case. -/
def scoreOf (r : GameRoom) (tok : String) : Option Int :=
  (r.players.find? (fun p => p.1 == tok)).map Prod.snd

/-- Dict update `self.players[tok] += d` on a present key. -/
def bumpScore (ps : List (String × Int)) (tok : String) (d : Int) : List (String × Int) :=
  ps.map (fun p => if p.1 == tok then (p.1, p.2 + d) else p)

/-- The loop `for card in cards: self.field.remove(card)`: each step removes
the first occurrence; `error` is the `ValueError` raise, carrying the field as
already mutated by the earlier iterations. -/
def removeSeq : List Card → List Card → Except (List Card) (List Card)
  | f, [] => Except.ok f
  | f, c :: cs => if f.contains c then removeSeq (f.erase c) cs else Except.error f

/-- Body of the loop `while len(self.field) < 12 and self.deck:
field.append(deck.pop())`, with an explicit iteration bound: every iteration
pops one card, so the loop runs at most `d.length` times. -/
def refillAux : Nat → List Card → List Card → List Card × List Card
  | 0, f, d => (f, d)
  | n + 1, f, d =>
    if f.length < 12 then
      match popLast d with
      | some (c, d2) => refillAux n (f ++ [c]) d2
      | none => (f, d)
    else (f, d)

/-- The loop `while len(self.field) < 12 and self.deck: field.append(deck.pop())`. -/
def refill (f d : List Card) : List Card × List Card := refillAux d.length f d

/-- The outcome of `GameRoom.pick_set`: a normal `(matched, score)` return, or
the exception (`KeyError` on the players dict, `ValueError` from
`field.remove`) that escapes to the HTTP handler. -/
inductive PickResult where
  | ok (matched : Bool) (score : Int)
  | keyError
  | valueError
deriving DecidableEq, Repr

/-- `GameRoom.pick_set(access_token, card_ids)`.  The returned room carries
exactly the mutations performed before any raise. -/
def pick_set (r : GameRoom) (tok : String) (card_ids : List Nat) : PickResult × GameRoom :=
  match card_ids with
  | [i1, i2, i3] =>
    match get_card_by_id r i1, get_card_by_id r i2, get_card_by_id r i3 with
    | some c1, some c2, some c3 =>
      if is_valid_set c1 c2 c3 then
        match removeSeq r.field [c1, c2, c3] with
        | Except.error f2 => (PickResult.valueError, { r with field := f2 })
        | Except.ok f1 =>
          match scoreOf r tok with
          | none => (PickResult.keyError, { r with field := f1 })
          | some s =>
            let ps := bumpScore r.players tok 1
            let fd := refill f1 r.deck
            let st2 := if fd.2 = [] ∧ fd.1.length < 3 then "ended" else r.status
            (PickResult.ok true (s + 1),
              { r with field := fd.1, deck := fd.2, players := ps, status := st2 })
      else
        match scoreOf r tok with
        | none => (PickResult.keyError, r)
        | some s => (PickResult.ok false (s - 1), { r with players := bumpScore r.players tok (-1) })
    | _, _, _ =>
      match scoreOf r tok with
      | none => (PickResult.keyError, r)
      | some s => (PickResult.ok false s, r)
  | _ =>
    match scoreOf r tok with
    | none => (PickResult.keyError, r)
    | some s => (PickResult.ok false s, r)

/-- `GameRoom.add_cards`: deal up to 3 cards from the deck to the field. -/
def add_cards (r : GameRoom) : GameRoom :=
  let fd := dealN 3 r.field r.deck
  { r with field := fd.1, deck := fd.2 }

/-- Per-user record held by `ServerState.users`. -/
structure UserInfo where
  nickname : String
  password : String
  current_game_id : Option Nat
deriving DecidableEq, Repr

/-- `ServerState`: the process-wide session directory (both dicts are
insertion-ordered association lists). -/
structure ServerState where
  users : List (String × UserInfo)
  games : List (Nat × GameRoom)
  next_game_id : Nat
deriving DecidableEq, Repr

/-- Dict read `self.users[tok]` as an option. -/
def ServerState.lookupUser (st : ServerState) (tok : String) : Option UserInfo :=
  (st.users.find? (fun p => p.1 == tok)).map Prod.snd

/-- Dict read `self.games[gid]` as an option. -/
def ServerState.lookupGame (st : ServerState) (gid : Nat) : Option GameRoom :=
  (st.games.find? (fun p => p.1 == gid)).map Prod.snd

/-- `ServerState.enter_game`: `False` on an unknown room id (before touching
any state); otherwise set the user's current-room pointer and join the room.
`none` models the `KeyError` on an unregistered token. -/
def enter_game (st : ServerState) (tok : String) (gid : Nat) : Option (Bool × ServerState) :=
  if st.lookupGame gid = none then some (false, st)
  else
    match st.lookupUser tok with
    | none => none
    | some _ =>
      some (true,
        { st with
          users := st.users.map
            (fun p => if p.1 == tok then (p.1, { p.2 with current_game_id := some gid }) else p),
          games := st.games.map
            (fun p => if p.1 == gid then (p.1, add_player p.2 tok) else p) })

/-- One mutating `GameRoom` operation, as dispatched by the HTTP handlers. -/
inductive Step : GameRoom → GameRoom → Prop where
  | pick (r : GameRoom) (tok : String) (ids : List Nat) : Step r (pick_set r tok ids).2
  | add (r : GameRoom) : Step r (add_cards r)
  | join (r : GameRoom) (tok : String) : Step r (add_player r tok)

/-- Rooms reachable from construction (any shuffle) by any operation sequence,
raising calls included. -/
inductive Reachable : GameRoom → Prop where
  | init (gid : Nat) (d : List Card) (h : d.Perm initDeck) : Reachable (mkRoom gid d)
  | step (r r' : GameRoom) (hr : Reachable r) (hs : Step r r') : Reachable r'

/-- Rooms reachable from construction by joins and by `pick_set` calls that
return normally (no `KeyError`, no `ValueError`). -/
inductive PickReachOk : GameRoom → Prop where
  | init (gid : Nat) (d : List Card) (h : d.Perm initDeck) : PickReachOk (mkRoom gid d)
  | join (r : GameRoom) (tok : String) (hr : PickReachOk r) : PickReachOk (add_player r tok)
  | pick (r : GameRoom) (tok : String) (ids : List Nat) (hr : PickReachOk r)
      (hok : ∃ m s, (pick_set r tok ids).1 = PickResult.ok m s) :
      PickReachOk ((pick_set r tok ids).2)

/-- Spec-side coherence of one attribute triple: all equal or all distinct. -/
def coherent (a b c : Nat) : Prop := (a = b ∧ b = c) ∨ (a ≠ b ∧ a ≠ c ∧ b ≠ c)

/-- Iterate `pick_set` by player "p" over a list of id-triples. -/
def runPicks : GameRoom → List (List Nat) → GameRoom
  | r, [] => r
  | r, ids :: rest => runPicks (pick_set r "p" ids).2 rest

/-- A fresh room on the identity shuffle with one joined player "p". -/
def room0p : GameRoom := add_player (mkRoom 0 initDeck) "p"

/-- `room0p` after one matched pick (the valid set with ids 78, 79, 80). -/
def c1Room : GameRoom := (pick_set room0p "p" [78, 79, 80]).2

/-- A fresh room on the identity shuffle after two `add_cards` calls. -/
def c4Room : GameRoom := add_cards (add_cards (mkRoom 0 initDeck))

/-- 26 successive valid picks on the identity shuffle (ids 78,79,80 down to
3,4,5) followed by the duplicate pick [0, 0, 0] that raises mid-removal. -/
def c6CrashRoom : GameRoom :=
  runPicks room0p (((List.range 26).map (fun j => [78 - 3 * j, 79 - 3 * j, 80 - 3 * j])) ++ [[0, 0, 0]])

/-- 27 successive valid picks on the identity shuffle: exhausts deck and field. -/
def endedRoom : GameRoom :=
  runPicks room0p ((List.range 27).map (fun j => [78 - 3 * j, 79 - 3 * j, 80 - 3 * j]))

/-- A one-user, no-room server state for witnesses. -/
def st0 : ServerState :=
  { users := [("t", { nickname := "alice", password := "pw", current_game_id := none })],
    games := [], next_game_id := 0 }

theorem popLast_none {l : List α} (h : popLast l = none) : l = [] := by
  cases l with
  | nil => rfl
  | cons a t => simp [popLast] at h

theorem popLast_spec {l r : List α} {c : α} (h : popLast l = some (c, r)) : l = r ++ [c] := by
  cases l with
  | nil => simp [popLast] at h
  | cons a t =>
    simp only [popLast, Option.some.injEq, Prod.mk.injEq] at h
    rw [← h.1, ← h.2]
    exact (List.dropLast_append_getLast (by simp)).symm

theorem popLast_length {l r : List α} {c : α} (h : popLast l = some (c, r)) :
    r.length < l.length := by
  rw [popLast_spec h]
  simp

theorem dealN_perm (n : Nat) :
    ∀ f d : List Card, ((dealN n f d).1 ++ (dealN n f d).2).Perm (f ++ d) := by
  induction n with
  | zero => intro f d; exact List.Perm.refl _
  | succ n ih =>
    intro f d
    cases hp : popLast d with
    | none =>
      have hd := popLast_none hp
      subst hd
      simpa [dealN, hp] using ih f []
    | some p =>
      obtain ⟨c, d2⟩ := p
      have hd := popLast_spec hp
      have h1 := ih (f ++ [c]) d2
      rw [dealN, hp]
      refine h1.trans ?_
      rw [hd, List.append_assoc]
      exact List.Perm.append_left f (List.perm_append_comm.trans (List.Perm.refl _))

theorem dealN_length (n : Nat) :
    ∀ f d : List Card, n ≤ d.length →
      (dealN n f d).1.length = f.length + n ∧ (dealN n f d).2.length = d.length - n := by
  induction n with
  | zero => intro f d _; simp [dealN]
  | succ n ih =>
    intro f d hn
    cases hp : popLast d with
    | none =>
      have hd := popLast_none hp
      subst hd
      simp at hn
    | some p =>
      obtain ⟨c, d2⟩ := p
      have hd := popLast_spec hp
      have hlen : d.length = d2.length + 1 := by rw [hd]; simp
      have hn2 : n ≤ d2.length := by omega
      have h1 := ih (f ++ [c]) d2 hn2
      rw [dealN, hp]
      constructor
      · rw [h1.1]; simp; omega
      · rw [h1.2]; omega

theorem refill_stop (f d : List Card) (h : ¬ f.length < 12) : refill f d = (f, d) := by
  unfold refill
  cases hn : d.length with
  | zero => rw [refillAux]
  | succ n => rw [refillAux, if_neg h]

theorem refill_empty (f d : List Card) (h : f.length < 12) (hp : popLast d = none) :
    refill f d = (f, d) := by
  have hd := popLast_none hp
  subst hd
  rfl

theorem refill_step (f d : List Card) (c : Card) (d2 : List Card)
    (h : f.length < 12) (hp : popLast d = some (c, d2)) :
    refill f d = refill (f ++ [c]) d2 := by
  have hd := popLast_spec hp
  have hlen : d.length = d2.length + 1 := by rw [hd]; simp
  unfold refill
  rw [hlen, refillAux, if_pos h, hp]

theorem refill_spec (f d : List Card) :
    ∃ dealt : List Card,
      (refill f d).1 = f ++ dealt ∧
      d = (refill f d).2 ++ dealt.reverse ∧
      ((refill f d).1.length < 12 → (refill f d).2 = []) := by
  by_cases hf : f.length < 12
  · cases hp : popLast d with
    | none =>
      refine ⟨[], ?_⟩
      have hd := popLast_none hp
      rw [refill_empty f d hf hp]
      simp [hd]
    | some p =>
      obtain ⟨c, d2⟩ := p
      have hd := popLast_spec hp
      obtain ⟨dealt2, h1, h2, h3⟩ := refill_spec (f ++ [c]) d2
      rw [refill_step f d c d2 hf hp]
      refine ⟨c :: dealt2, ?_, ?_, ?_⟩
      · rw [h1]; simp
      · rw [hd]
        conv_lhs => rw [h2]
        simp
      · exact h3
  · refine ⟨[], ?_⟩
    rw [refill_stop f d hf]
    refine ⟨by simp, by simp, ?_⟩
    intro h
    exact absurd h hf
termination_by d.length
decreasing_by exact popLast_length hp

theorem refill_perm (f d : List Card) :
    ((refill f d).1 ++ (refill f d).2).Perm (f ++ d) := by
  obtain ⟨dealt, h1, h2, _⟩ := refill_spec f d
  have key : ∀ F D : List Card, F = f ++ dealt → d = D ++ dealt.reverse →
      (F ++ D).Perm (f ++ d) := by
    intro F D hF hD
    subst hF
    subst hD
    rw [List.append_assoc]
    refine List.Perm.append_left f ?_
    refine List.perm_append_comm.trans ?_
    exact List.Perm.append_left _ (List.reverse_perm dealt).symm
  exact key _ _ h1 h2

theorem refill_dealt_length (f d : List Card) :
    (refill f d).1.length = f.length + min (12 - f.length) d.length := by
  by_cases hf : f.length < 12
  · cases hp : popLast d with
    | none =>
      have hd := popLast_none hp
      rw [refill_empty f d hf hp]
      subst hd
      simp
    | some p =>
      obtain ⟨c, d2⟩ := p
      have hd := popLast_spec hp
      have ih := refill_dealt_length (f ++ [c]) d2
      have hlen : d.length = d2.length + 1 := by rw [hd]; simp
      rw [refill_step f d c d2 hf hp, ih, hlen]
      simp only [List.length_append, List.length_cons, List.length_nil]
      omega
  · rw [refill_stop f d hf]
    have h12 : 12 - f.length = 0 := by omega
    rw [h12]
    simp
termination_by d.length
decreasing_by exact popLast_length hp

theorem removeSeq_ok_sublist :
    ∀ {cs f f' : List Card}, removeSeq f cs = Except.ok f' → f'.Sublist f := by
  intro cs
  induction cs with
  | nil => intro f f' h; rw [removeSeq] at h; cases h; exact List.Sublist.refl _
  | cons c cs ih =>
    intro f f' h
    rw [removeSeq] at h
    by_cases hc : f.contains c
    · rw [if_pos hc] at h
      exact (ih h).trans (List.erase_sublist c f)
    · rw [if_neg hc] at h; cases h

theorem removeSeq_error_sublist :
    ∀ {cs f f2 : List Card}, removeSeq f cs = Except.error f2 → f2.Sublist f := by
  intro cs
  induction cs with
  | nil => intro f f2 h; rw [removeSeq] at h; cases h
  | cons c cs ih =>
    intro f f2 h
    rw [removeSeq] at h
    by_cases hc : f.contains c
    · rw [if_pos hc] at h
      exact (ih h).trans (List.erase_sublist c f)
    · rw [if_neg hc] at h; cases h; exact List.Sublist.refl _

theorem removeSeq_ok_length :
    ∀ {cs f f' : List Card}, removeSeq f cs = Except.ok f' →
      f'.length + cs.length = f.length := by
  intro cs
  induction cs with
  | nil => intro f f' h; rw [removeSeq] at h; cases h; simp
  | cons c cs ih =>
    intro f f' h
    rw [removeSeq] at h
    by_cases hc : f.contains c
    · rw [if_pos hc] at h
      have hm : c ∈ f := by simpa using hc
      have h1 := ih h
      have h2 : (f.erase c).length = f.length - 1 := by
        rw [List.length_erase_of_mem hm]
      have hpos : 1 ≤ f.length := List.length_pos.mpr (by rintro rfl; cases hm)
      simp only [List.length_cons]
      omega
    · rw [if_neg hc] at h; cases h

theorem pick_subperm (r : GameRoom) (tok : String) (ids : List Nat) :
    ((pick_set r tok ids).2.field ++ (pick_set r tok ids).2.deck).Subperm
      (r.field ++ r.deck) := by
  unfold pick_set
  split
  · split
    · split
      · split
        · rename_i f2 heq
          exact ((removeSeq_error_sublist heq).append_right _).subperm
        · rename_i f1 heq
          split
          · exact ((removeSeq_ok_sublist heq).append_right _).subperm
          · dsimp only
            exact (refill_perm f1 r.deck).subperm.trans
              ((removeSeq_ok_sublist heq).append_right _).subperm
      · split
        · exact List.Subperm.refl _
        · exact List.Subperm.refl _
    · split
      · exact List.Subperm.refl _
      · exact List.Subperm.refl _
  · split
    · exact List.Subperm.refl _
    · exact List.Subperm.refl _

theorem add_player_field (r : GameRoom) (tok : String) :
    (add_player r tok).field = r.field ∧ (add_player r tok).deck = r.deck ∧
    (add_player r tok).status = r.status := by
  unfold add_player
  split
  · exact ⟨rfl, rfl, rfl⟩
  · exact ⟨rfl, rfl, rfl⟩

theorem add_cards_perm (r : GameRoom) :
    ((add_cards r).field ++ (add_cards r).deck).Perm (r.field ++ r.deck) := by
  unfold add_cards
  exact dealN_perm 3 r.field r.deck

theorem mkRoom_perm (gid : Nat) (d : List Card) :
    ((mkRoom gid d).field ++ (mkRoom gid d).deck).Perm d := by
  unfold mkRoom
  exact dealN_perm 12 [] d

/-- Card conservation: every reachable room's field and deck together form a
sub-multiset of the canonical 81-card deck. -/
theorem reachable_subperm {r : GameRoom} (h : Reachable r) :
    (r.field ++ r.deck).Subperm initDeck := by
  induction h with
  | init gid d hperm => exact ((mkRoom_perm gid d).trans hperm).subperm
  | step r r' hr hs ih =>
    cases hs with
    | pick tok ids => exact (pick_subperm r tok ids).trans ih
    | add => exact (add_cards_perm r).subperm.trans ih
    | join tok =>
      rw [(add_player_field r tok).1, (add_player_field r tok).2.1]
      exact ih

theorem runPicks_reachable (l : List (List Nat)) :
    ∀ r : GameRoom, Reachable r → Reachable (runPicks r l) := by
  induction l with
  | nil => intro r h; exact h
  | cons ids rest ih =>
    intro r h
    exact ih _ (Reachable.step r _ h (Step.pick r "p" ids))

theorem subperm_nodup {l1 l2 : List α} (h : l1.Subperm l2) (hn : l2.Nodup) : l1.Nodup := by
  obtain ⟨l, hp, hs⟩ := h
  exact hp.nodup (List.Nodup.sublist hs hn)

theorem subperm_map (f : α → β) {l1 l2 : List α} (h : l1.Subperm l2) :
    (l1.map f).Subperm (l2.map f) := by
  obtain ⟨l, hp, hs⟩ := h
  exact ⟨l.map f, hp.map f, hs.map f⟩

theorem find_bump (ps : List (String × Int)) (tok : String) (d : Int) :
    (bumpScore ps tok d).find? (fun p => p.1 == tok) =
      (ps.find? (fun p => p.1 == tok)).map (fun p => (p.1, p.2 + d)) := by
  induction ps with
  | nil => rfl
  | cons q qs ih =>
    simp only [bumpScore, List.map_cons] at ih ⊢
    by_cases hq : (q.1 == tok) = true
    · rw [if_pos hq]
      simp only [List.find?_cons, hq]
      rfl
    · have hqf : (q.1 == tok) = false := by simpa using hq
      rw [if_neg hq]
      simp only [List.find?_cons, hqf]
      exact ih

theorem find_bump_other (ps : List (String × Int)) (tok tok2 : String) (d : Int)
    (hne : tok2 ≠ tok) :
    (bumpScore ps tok d).find? (fun p => p.1 == tok2) = ps.find? (fun p => p.1 == tok2) := by
  induction ps with
  | nil => rfl
  | cons q qs ih =>
    simp only [bumpScore, List.map_cons] at ih ⊢
    by_cases hq : (q.1 == tok) = true
    · have hq2 : (q.1 == tok2) = false := by
        rw [beq_eq_false_iff_ne]
        have hq' : q.1 = tok := by simpa using hq
        rw [hq']
        exact hne.symm
      rw [if_pos hq]
      simp only [List.find?_cons, hq2]
      exact ih
    · rw [if_neg hq]
      cases hq2 : (q.1 == tok2) with
      | true => simp only [List.find?_cons, hq2]
      | false =>
        simp only [List.find?_cons, hq2]
        exact ih

theorem scoreOf_bump (r : GameRoom) (tok : String) (d s : Int)
    (hs : scoreOf r tok = some s) (ps : List (String × Int))
    (hps : ps = bumpScore r.players tok d) :
    (ps.find? (fun p => p.1 == tok)).map Prod.snd = some (s + d) := by
  subst hps
  rw [find_bump]
  unfold scoreOf at hs
  obtain ⟨p, hp, hsnd⟩ := Option.map_eq_some'.mp hs
  rw [hp]
  simp [hsnd]

theorem scoreOf_add_player (r : GameRoom) (tok t2 : String) (s : Int)
    (hs : scoreOf r tok = some s) : scoreOf (add_player r t2) tok = some s := by
  unfold add_player
  split
  · exact hs
  · unfold scoreOf at hs ⊢
    obtain ⟨p, hp, hsnd⟩ := Option.map_eq_some'.mp hs
    simp only [List.find?_append, hp]
    simp [hsnd]

theorem removeSeq_ok_eq {f f1 : List Card} {c1 c2 c3 : Card}
    (h : removeSeq f [c1, c2, c3] = Except.ok f1) :
    f1 = ((f.erase c1).erase c2).erase c3 := by
  rw [removeSeq] at h
  by_cases h1 : f.contains c1
  · rw [if_pos h1, removeSeq] at h
    by_cases h2 : (f.erase c1).contains c2
    · rw [if_pos h2, removeSeq] at h
      by_cases h3 : ((f.erase c1).erase c2).contains c3
      · rw [if_pos h3, removeSeq] at h
        cases h
        rfl
      · rw [if_neg h3] at h; cases h
    · rw [if_neg h2] at h; cases h
  · rw [if_neg h1] at h; cases h

/-- Exhaustive description of every control path of `pick_set`. -/
theorem pick_set_cases (r : GameRoom) (tok : String) (ids : List Nat) :
    (∃ s, scoreOf r tok = some s ∧ pick_set r tok ids = (PickResult.ok false s, r) ∧
      (ids.length ≠ 3 ∨ ∃ i ∈ ids, get_card_by_id r i = none)) ∨
    (scoreOf r tok = none ∧ (pick_set r tok ids).1 = PickResult.keyError ∧
      (pick_set r tok ids).2.status = r.status ∧
      (pick_set r tok ids).2.players = r.players ∧ (pick_set r tok ids).2.deck = r.deck) ∨
    (∃ i1 i2 i3 c1 c2 c3, ids = [i1, i2, i3] ∧
      get_card_by_id r i1 = some c1 ∧ get_card_by_id r i2 = some c2 ∧
      get_card_by_id r i3 = some c3 ∧
      ((is_valid_set c1 c2 c3 = false ∧ ∃ s, scoreOf r tok = some s ∧
          pick_set r tok ids =
            (PickResult.ok false (s - 1), { r with players := bumpScore r.players tok (-1) })) ∨
       (is_valid_set c1 c2 c3 = true ∧
         ((∃ f2, removeSeq r.field [c1, c2, c3] = Except.error f2 ∧
             pick_set r tok ids = (PickResult.valueError, { r with field := f2 })) ∨
          (∃ f1, removeSeq r.field [c1, c2, c3] = Except.ok f1 ∧ ∃ s, scoreOf r tok = some s ∧
            pick_set r tok ids =
              (PickResult.ok true (s + 1),
                { r with
                  field := (refill f1 r.deck).1, deck := (refill f1 r.deck).2,
                  players := bumpScore r.players tok 1,
                  status := if (refill f1 r.deck).2 = [] ∧ (refill f1 r.deck).1.length < 3
                    then "ended" else r.status })))))) := by
  rcases ids with _ | ⟨i1, _ | ⟨i2, _ | ⟨i3, _ | ⟨i4, t⟩⟩⟩⟩
  case cons.cons.cons.cons =>
    cases hs : scoreOf r tok with
    | none => exact Or.inr (Or.inl (by simp [pick_set, hs]))
    | some s => exact Or.inl ⟨s, rfl, by simp [pick_set, hs], Or.inl (by simp)⟩
  · cases hs : scoreOf r tok with
    | none => exact Or.inr (Or.inl (by simp [pick_set, hs]))
    | some s => exact Or.inl ⟨s, rfl, by simp [pick_set, hs], Or.inl (by simp)⟩
  · cases hs : scoreOf r tok with
    | none => exact Or.inr (Or.inl (by simp [pick_set, hs]))
    | some s => exact Or.inl ⟨s, rfl, by simp [pick_set, hs], Or.inl (by simp)⟩
  · cases hs : scoreOf r tok with
    | none => exact Or.inr (Or.inl (by simp [pick_set, hs]))
    | some s => exact Or.inl ⟨s, rfl, by simp [pick_set, hs], Or.inl (by simp)⟩
  · -- the triple shape [i1, i2, i3]
    cases hg1 : get_card_by_id r i1 with
    | none =>
      cases hs : scoreOf r tok with
      | none => exact Or.inr (Or.inl (by simp [pick_set, hg1, hs]))
      | some s =>
        refine Or.inl ⟨s, rfl, by simp [pick_set, hg1, hs], Or.inr ⟨i1, by simp, hg1⟩⟩
    | some c1 =>
      cases hg2 : get_card_by_id r i2 with
      | none =>
        cases hs : scoreOf r tok with
        | none => exact Or.inr (Or.inl (by simp [pick_set, hg1, hg2, hs]))
        | some s =>
          refine Or.inl ⟨s, rfl, by simp [pick_set, hg1, hg2, hs], Or.inr ⟨i2, by simp, hg2⟩⟩
      | some c2 =>
        cases hg3 : get_card_by_id r i3 with
        | none =>
          cases hs : scoreOf r tok with
          | none => exact Or.inr (Or.inl (by simp [pick_set, hg1, hg2, hg3, hs]))
          | some s =>
            refine Or.inl ⟨s, rfl, by simp [pick_set, hg1, hg2, hg3, hs],
              Or.inr ⟨i3, by simp, hg3⟩⟩
        | some c3 =>
          cases hv : is_valid_set c1 c2 c3 with
          | false =>
            cases hs : scoreOf r tok with
            | none => exact Or.inr (Or.inl (by simp [pick_set, hg1, hg2, hg3, hv, hs]))
            | some s =>
              exact Or.inr (Or.inr ⟨i1, i2, i3, c1, c2, c3, rfl, hg1, hg2, hg3,
                Or.inl ⟨hv, s, rfl, by simp [pick_set, hg1, hg2, hg3, hv, hs]⟩⟩)
          | true =>
            cases hrm : removeSeq r.field [c1, c2, c3] with
            | error f2 =>
              exact Or.inr (Or.inr ⟨i1, i2, i3, c1, c2, c3, rfl, hg1, hg2, hg3,
                Or.inr ⟨hv, Or.inl ⟨f2, hrm,
                  by simp [pick_set, hg1, hg2, hg3, hv, hrm]⟩⟩⟩)
            | ok f1 =>
              cases hs : scoreOf r tok with
              | none =>
                exact Or.inr (Or.inl (by simp [pick_set, hg1, hg2, hg3, hv, hrm, hs]))
              | some s =>
                exact Or.inr (Or.inr ⟨i1, i2, i3, c1, c2, c3, rfl, hg1, hg2, hg3,
                  Or.inr ⟨hv, Or.inr ⟨f1, hrm, s, rfl,
                    by simp [pick_set, hg1, hg2, hg3, hv, hrm, hs]⟩⟩⟩)

/-- C5: `is_valid_set` returns true exactly when every one of the four
attributes is coherent (all equal or pairwise distinct); in particular a
triple with exactly two equal values on some attribute is rejected. -/
theorem is_valid_set_iff_coherent (c1 c2 c3 : Card) :
    is_valid_set c1 c2 c3 = true ↔
      (coherent c1.count c2.count c3.count ∧ coherent c1.shape c2.shape c3.shape ∧
       coherent c1.fill c2.fill c3.fill ∧ coherent c1.color c2.color c3.color) := by
  simp only [is_valid_set, check_property, coherent, Bool.and_eq_true, Bool.or_eq_true,
    beq_iff_eq, bne_iff_ne, ne_eq]
  tauto

/-- C8: a freshly constructed room, for any shuffle, has 12 field cards,
69 deck cards, status "ongoing", and deck plus field form the full 81-card
deck with every attribute combination appearing exactly once. -/
theorem fresh_room_state (gid : Nat) (d : List Card) (h : d.Perm initDeck) :
    (mkRoom gid d).field.length = 12 ∧ (mkRoom gid d).deck.length = 69 ∧
    (mkRoom gid d).status = "ongoing" ∧
    ((mkRoom gid d).deck ++ (mkRoom gid d).field).Perm initDeck ∧
    (∀ a b c e : Nat, a ∈ [1, 2, 3] → b ∈ [1, 2, 3] → c ∈ [1, 2, 3] → e ∈ [1, 2, 3] →
      ((mkRoom gid d).deck ++ (mkRoom gid d).field).countP
        (fun k => k.count == a && k.shape == b && k.fill == c && k.color == e) = 1) := by
  have hlen : d.length = 81 := by
    rw [h.length_eq]
    rfl
  have hdl := dealN_length 12 [] d (by omega)
  have hperm : ((mkRoom gid d).deck ++ (mkRoom gid d).field).Perm initDeck :=
    (List.perm_append_comm.trans ((mkRoom_perm gid d).trans h))
  refine ⟨?_, ?_, rfl, hperm, ?_⟩
  · show (dealN 12 [] d).1.length = 12
    rw [hdl.1]
    rfl
  · show (dealN 12 [] d).2.length = 69
    rw [hdl.2, hlen]
  · intro a b c e ha hb hc he
    rw [hperm.countP_eq]
    fin_cases ha <;> fin_cases hb <;> fin_cases hc <;> fin_cases he <;> decide

/-- Witness for C8 at the identity shuffle. -/
theorem fresh_room_state_witness :
    (mkRoom 0 initDeck).field.length = 12 ∧ (mkRoom 0 initDeck).deck.length = 69 ∧
    (mkRoom 0 initDeck).status = "ongoing" :=
  ⟨(fresh_room_state 0 initDeck (List.Perm.refl _)).1,
   (fresh_room_state 0 initDeck (List.Perm.refl _)).2.1,
   (fresh_room_state 0 initDeck (List.Perm.refl _)).2.2.1⟩

/-- C9: entering an unknown room id fails (returns `False`, reported as
RoomNotFound by the handler) and leaves the whole server state — in
particular the identity's current-room pointer and every room's participant
map — unchanged. -/
theorem enter_unknown_room (st : ServerState) (tok : String) (u : UserInfo) (gid : Nat)
    (hu : st.lookupUser tok = some u) (hg : st.lookupGame gid = none) :
    enter_game st tok gid = some (false, st) := by
  unfold enter_game
  rw [if_pos hg]

/-- Witness for C9 at a concrete one-user, zero-room state. -/
theorem enter_unknown_room_witness : enter_game st0 "t" 7 = some (false, st0) :=
  enter_unknown_room st0 "t"
    { nickname := "alice", password := "pw", current_game_id := none } 7
    (by decide) (by decide)

/-- C10: a `pick_set` call by a joined token whose id list does not have
exactly 3 elements, or references an id not on the field, returns
`(False, current score)` and leaves the room (deck, field, status, all
scores) entirely unchanged — no penalty is applied. -/
theorem pick_rejects_bad_args (r : GameRoom) (tok : String) (ids : List Nat) (s : Int)
    (hs : scoreOf r tok = some s)
    (hbad : ids.length ≠ 3 ∨ ∃ i ∈ ids, get_card_by_id r i = none) :
    pick_set r tok ids = (PickResult.ok false s, r) := by
  rcases pick_set_cases r tok ids with ⟨s2, hs2, heq, _⟩ | ⟨hn, _⟩ |
    ⟨i1, i2, i3, c1, c2, c3, hids, hg1, hg2, hg3, hrest⟩
  · obtain rfl := Option.some.inj (hs2.symm.trans hs)
    exact heq
  · rw [hs] at hn
    cases hn
  · exfalso
    subst hids
    rcases hbad with hlen | ⟨i, hi, hnone⟩
    · exact hlen rfl
    · simp only [List.mem_cons, List.not_mem_nil, or_false] at hi
      rcases hi with rfl | rfl | rfl
      · rw [hg1] at hnone; cases hnone
      · rw [hg2] at hnone; cases hnone
      · rw [hg3] at hnone; cases hnone

/-- Witness for C10: a 2-element pick on a fresh joined room. -/
theorem pick_rejects_bad_args_witness :
    pick_set room0p "p" [1, 2] = (PickResult.ok false 0, room0p) :=
  pick_rejects_bad_args room0p "p" [1, 2] 0 (by decide) (Or.inl (by decide))

/-- C3 counterexample: a rejected pick (empty id list) returns matched =
false yet leaves the caller's score at 0 instead of decrementing it to -1. -/
theorem pick_false_without_penalty :
    pick_set room0p "p" [] = (PickResult.ok false 0, room0p) ∧
    scoreOf room0p "p" = some 0 := by
  constructor <;> decide

/-- C3 amended: when `pick_set` returns normally for a joined token, a match
adds 1 to the caller's score and a non-match either subtracts 1 (invalid
triple of resolved cards) or leaves the room untouched (argument-check
failure); the returned integer is the caller's post-call score; other
tokens' scores are unchanged, and `add_cards` and `add_player` change no
existing score. -/
theorem pick_score_update (r : GameRoom) (tok : String) (ids : List Nat) (s s2 : Int) (m : Bool)
    (hs : scoreOf r tok = some s)
    (hres : (pick_set r tok ids).1 = PickResult.ok m s2) :
    scoreOf (pick_set r tok ids).2 tok = some s2 ∧
    (m = true → s2 = s + 1) ∧
    (m = false → s2 = s - 1 ∨ (s2 = s ∧ (pick_set r tok ids).2 = r)) ∧
    (∀ t2 : String, t2 ≠ tok → scoreOf (pick_set r tok ids).2 t2 = scoreOf r t2) ∧
    (∀ t2 : String, scoreOf (add_cards r) t2 = scoreOf r t2) ∧
    (∀ t2 t3 : String, ∀ v : Int, scoreOf r t2 = some v →
      scoreOf (add_player r t3) t2 = some v) := by
  have hadd : ∀ t2 : String, scoreOf (add_cards r) t2 = scoreOf r t2 := fun t2 => rfl
  have hjoin : ∀ t2 t3 : String, ∀ v : Int, scoreOf r t2 = some v →
      scoreOf (add_player r t3) t2 = some v :=
    fun t2 t3 v hv => scoreOf_add_player r t2 t3 v hv
  rcases pick_set_cases r tok ids with ⟨s3, hs3, heq, _⟩ | ⟨hn, _⟩ |
    ⟨i1, i2, i3, c1, c2, c3, hids, hg1, hg2, hg3, hrest⟩
  · obtain rfl := Option.some.inj (hs3.symm.trans hs)
    rw [heq] at hres
    injection hres with hm hs2
    refine ⟨?_, ?_, ?_, ?_, hadd, hjoin⟩
    · rw [heq, ← hs2]
      exact hs
    · intro ht; rw [ht] at hm; cases hm
    · intro _
      exact Or.inr ⟨hs2.symm, by rw [heq]⟩
    · intro t2 _
      rw [heq]
  · rw [hs] at hn
    cases hn
  · subst hids
    rcases hrest with ⟨hv, s3, hs3, heq⟩ | ⟨hv, ⟨f2, hrm, heq⟩ | ⟨f1, hrm, s3, hs3, heq⟩⟩
    · have hss : s3 = s := Option.some.inj (hs3.symm.trans hs)
      subst hss
      rw [heq] at hres
      injection hres with hm hs2
      refine ⟨?_, ?_, ?_, ?_, hadd, hjoin⟩
      · rw [heq, ← hs2]
        have h2 := scoreOf_bump r tok (-1) s3 hs _ rfl
        have h3 : s3 + (-1) = s3 - 1 := by omega
        rw [h3] at h2
        exact h2
      · intro ht; rw [ht] at hm; cases hm
      · intro _
        exact Or.inl hs2.symm
      · intro t2 hne
        rw [heq]
        show ((bumpScore r.players tok (-1)).find? (fun p => p.1 == t2)).map Prod.snd =
          (r.players.find? (fun p => p.1 == t2)).map Prod.snd
        rw [find_bump_other r.players tok t2 (-1) hne]
    · rw [heq] at hres
      cases hres
    · have hss : s3 = s := Option.some.inj (hs3.symm.trans hs)
      subst hss
      rw [heq] at hres
      injection hres with hm hs2
      refine ⟨?_, ?_, ?_, ?_, hadd, hjoin⟩
      · rw [heq, ← hs2]
        exact scoreOf_bump r tok 1 s3 hs _ rfl
      · intro _
        exact hs2.symm
      · intro hf; rw [hf] at hm; cases hm
      · intro t2 hne
        rw [heq]
        show ((bumpScore r.players tok 1).find? (fun p => p.1 == t2)).map Prod.snd =
          (r.players.find? (fun p => p.1 == t2)).map Prod.snd
        rw [find_bump_other r.players tok t2 1 hne]

/-- Witness for C3 (amended): the matched pick of ids 78, 79, 80 on a fresh
joined room yields score 1. -/
theorem pick_score_update_witness :
    scoreOf (pick_set room0p "p" [78, 79, 80]).2 "p" = some 1 :=
  (pick_score_update room0p "p" [78, 79, 80] 0 1 true (by decide) (by decide)).1

/-- C1 amended: at every reachable state the ids in deck plus field are all
distinct and number at most 81; the count is exactly 81 only until cards are
removed by matched picks (see the counterexample). -/
theorem deck_field_ids_nodup (r : GameRoom) (h : Reachable r) :
    ((r.deck ++ r.field).map Card.id).Nodup ∧ (r.deck ++ r.field).length ≤ 81 := by
  have hsub : (r.field ++ r.deck).Subperm initDeck := reachable_subperm h
  have hsub2 : (r.deck ++ r.field).Subperm initDeck :=
    (List.perm_append_comm.subperm_right).mpr hsub
  constructor
  · exact subperm_nodup (subperm_map Card.id hsub2) (by decide)
  · have h2 := hsub2.length_le
    have h3 : initDeck.length = 81 := by decide
    omega

/-- Witness for C1 (amended) at a freshly built room. -/
theorem deck_field_ids_nodup_witness :
    (((mkRoom 0 initDeck).deck ++ (mkRoom 0 initDeck).field).map Card.id).Nodup ∧
    ((mkRoom 0 initDeck).deck ++ (mkRoom 0 initDeck).field).length ≤ 81 :=
  deck_field_ids_nodup (mkRoom 0 initDeck) (Reachable.init 0 initDeck (List.Perm.refl _))

/-- C1 counterexample: after one matched pick the union of deck and field
holds 78 unique ids, not 81 — matched cards leave the game for good. -/
theorem deck_field_counterexample :
    Reachable c1Room ∧ ((c1Room.deck ++ c1Room.field).map Card.id).dedup.length = 78 := by
  constructor
  · exact Reachable.step _ _ (Reachable.step _ _ (Reachable.init 0 initDeck (List.Perm.refl _))
      (Step.join _ "p")) (Step.pick _ "p" [78, 79, 80])
  · decide

/-- C4 amended: the field never exceeds 81 cards (the whole deck); the
spec's bound of 15 is violated by repeated `add_cards` calls, which have no
upper check (see the counterexample). -/
theorem field_size_bounded (r : GameRoom) (h : Reachable r) : r.field.length ≤ 81 := by
  have hsub := reachable_subperm h
  have h2 := hsub.length_le
  have h3 : r.field.length ≤ (r.field ++ r.deck).length := by simp
  have h4 : initDeck.length = 81 := by decide
  omega

/-- Witness for C4 (amended) at a freshly built room. -/
theorem field_size_bounded_witness : (mkRoom 0 initDeck).field.length ≤ 81 :=
  field_size_bounded _ (Reachable.init 0 initDeck (List.Perm.refl _))

/-- C4 counterexample: two `add_cards` calls on a fresh room (status still
"ongoing") grow the field to 18 cards, beyond the claimed bound of 15. -/
theorem field_size_counterexample :
    Reachable c4Room ∧ c4Room.status = "ongoing" ∧ c4Room.field.length = 18 := by
  refine ⟨?_, by decide, by decide⟩
  exact Reachable.step _ _ (Reachable.step _ _ (Reachable.init 0 initDeck (List.Perm.refl _))
    (Step.add _)) (Step.add _)

/-- C2 counterexample: on a fresh joined room, id 80 is on the field exactly
once, yet submitting [80, 80, 80] does not return matched = true: the call
raises `ValueError` during removal, and the caller's score is untouched. -/
theorem pick_duplicate_counterexample :
    room0p.field.countP (fun k => k.id == 80) = 1 ∧
    (pick_set room0p "p" [80, 80, 80]).1 = PickResult.valueError ∧
    scoreOf (pick_set room0p "p" [80, 80, 80]).2 "p" = some 0 := by
  refine ⟨by decide, by decide, by decide⟩

/-- C2 amended: when an id occurs exactly once on the field, submitting it
three times resolves all three slots to the one card and `is_valid_set`
does report a match on that degenerate triple, but `pick_set` then raises
`ValueError` (the second `field.remove` of the same card fails) instead of
returning matched = true; the room is left with that single card removed
and no score change. -/
theorem pick_duplicate_raises (r : GameRoom) (tok : String) (cid : Nat) (c : Card)
    (hfind : get_card_by_id r cid = some c)
    (honce : r.field.countP (fun k => k.id == cid) = 1) :
    is_valid_set c c c = true ∧
    pick_set r tok [cid, cid, cid] =
      (PickResult.valueError, { r with field := r.field.erase c }) := by
  have hvalid : is_valid_set c c c = true := by
    simp [is_valid_set, check_property]
  have hfind2 : r.field.find? (fun k => k.id == cid) = some c := hfind
  have hmem : c ∈ r.field := List.mem_of_find?_eq_some hfind2
  have hcid : (c.id == cid) = true := by
    have h0 := List.find?_some hfind2
    simpa using h0
  have hcid2 : c.id = cid := by simpa using hcid
  have hcount1 : r.field.count c = 1 := by
    have hle : r.field.count c ≤ r.field.countP (fun k => k.id == cid) := by
      refine List.countP_mono_left ?_
      intro k hk hkc
      have hkc2 : k = c := by simpa using hkc
      rw [hkc2]
      exact hcid
    have hge : 0 < r.field.count c := List.count_pos_iff.mpr hmem
    omega
  have hnotin : ¬ (r.field.erase c).contains c = true := by
    have hz : (r.field.erase c).count c = 0 := by
      rw [List.count_erase_self, hcount1]
    have hnm : c ∉ r.field.erase c := List.count_eq_zero.mp hz
    simpa using hnm
  have hcontains : r.field.contains c = true := by simpa using hmem
  refine ⟨hvalid, ?_⟩
  simp only [pick_set, hfind, hvalid, if_true]
  rw [removeSeq, if_pos hcontains, removeSeq, if_neg hnotin]

/-- Witness for C2 (amended) at id 80 on a fresh joined room. -/
theorem pick_duplicate_raises_witness :
    is_valid_set (cardOfId 80) (cardOfId 80) (cardOfId 80) = true ∧
    pick_set room0p "p" [80, 80, 80] =
      (PickResult.valueError, { room0p with field := room0p.field.erase (cardOfId 80) }) :=
  pick_duplicate_raises room0p "p" 80 (cardOfId 80) (by decide) (by decide)

/-- C6 amended: over rooms reached by joins and by `pick_set` calls that
return normally, status = "ended" exactly when the deck is empty and the
field holds fewer than 3 cards; and once "ended" the status survives every
operation.  (A `pick_set` call that raises mid-removal breaks the iff —
see the counterexample.) -/
theorem status_ended_iff (r : GameRoom) (tok : String) (ids : List Nat) :
    (PickReachOk r → (r.status = "ended" ↔ r.deck = [] ∧ r.field.length < 3)) ∧
    (r.status = "ended" → (pick_set r tok ids).2.status = "ended" ∧
      (add_cards r).status = "ended" ∧ (add_player r tok).status = "ended") := by
  constructor
  · intro h
    induction h with
    | init gid d hperm =>
      have hlen : d.length = 81 := by rw [hperm.length_eq]; rfl
      have hdl := dealN_length 12 [] d (by omega)
      constructor
      · intro hst
        have hbad : "ongoing" = "ended" := hst
        exact absurd hbad (by decide)
      · rintro ⟨hdeck, hfld⟩
        exfalso
        have h69 : (mkRoom gid d).deck.length = 69 := by
          show (dealN 12 [] d).2.length = 69
          rw [hdl.2, hlen]
        rw [hdeck] at h69
        simp at h69
    | join r2 tok2 hr ih =>
      rw [(add_player_field r2 tok2).1, (add_player_field r2 tok2).2.1,
        (add_player_field r2 tok2).2.2]
      exact ih
    | pick r2 tok2 ids2 hr hok ih =>
      obtain ⟨m, s, hres⟩ := hok
      rcases pick_set_cases r2 tok2 ids2 with ⟨s2, hs2, heq, _⟩ | ⟨hn, hkey, _, _, _⟩ |
        ⟨i1, i2, i3, c1, c2, c3, hids, hg1, hg2, hg3, hrest⟩
      · rw [heq]
        exact ih
      · rw [hres] at hkey
        cases hkey
      · subst hids
        rcases hrest with ⟨hv, s3, hs3, heq⟩ | ⟨hv, ⟨f2, hrm, heq⟩ | ⟨f1, hrm, s3, hs3, heq⟩⟩
        · rw [heq]
          exact ih
        · rw [heq] at hres
          cases hres
        · rw [heq]
          have hflen := removeSeq_ok_length hrm
          simp only [List.length_cons, List.length_nil] at hflen
          by_cases hcond : ((refill f1 r2.deck).2 = [] ∧ (refill f1 r2.deck).1.length < 3)
          · constructor
            · intro _
              exact hcond
            · intro _
              show (if (refill f1 r2.deck).2 = [] ∧ (refill f1 r2.deck).1.length < 3
                then "ended" else r2.status) = "ended"
              rw [if_pos hcond]
          · have hnend : ¬ r2.status = "ended" := by
              intro hst
              obtain ⟨hdeck, hfld⟩ := ih.mp hst
              omega
            constructor
            · intro hst
              have h5 : (if (refill f1 r2.deck).2 = [] ∧ (refill f1 r2.deck).1.length < 3
                  then "ended" else r2.status) = "ended" := hst
              rw [if_neg hcond] at h5
              exact absurd h5 hnend
            · intro hc
              exact absurd hc hcond
  · intro hst
    refine ⟨?_, hst, ?_⟩
    · rcases pick_set_cases r tok ids with ⟨s2, hs2, heq, _⟩ | ⟨hn, hkey, hstp, _, _⟩ |
        ⟨i1, i2, i3, c1, c2, c3, hids, hg1, hg2, hg3, hrest⟩
      · rw [heq]
        exact hst
      · rw [hstp]
        exact hst
      · rcases hrest with ⟨hv, s3, hs3, heq⟩ | ⟨hv, ⟨f2, hrm, heq⟩ | ⟨f1, hrm, s3, hs3, heq⟩⟩
        · rw [heq]
          exact hst
        · rw [heq]
          exact hst
        · rw [heq]
          show (if (refill f1 r.deck).2 = [] ∧ (refill f1 r.deck).1.length < 3
            then "ended" else r.status) = "ended"
          split
          · rfl
          · exact hst
    · rw [(add_player_field r tok).2.2]
      exact hst

/-- Witness for C6 (amended): the iff at a fresh room, and permanence at the
fully played-out room. -/
theorem status_ended_iff_witness :
    ((mkRoom 0 initDeck).status = "ended" ↔
      (mkRoom 0 initDeck).deck = [] ∧ (mkRoom 0 initDeck).field.length < 3) ∧
    (pick_set endedRoom "p" [0, 0, 0]).2.status = "ended" :=
  ⟨(status_ended_iff (mkRoom 0 initDeck) "p" []).1
      (PickReachOk.init 0 initDeck (List.Perm.refl _)),
   ((status_ended_iff endedRoom "p" [0, 0, 0]).2 (by decide)).1⟩

/-- C6 counterexample: after 27 `pick_set` calls on a fresh room (26 matched
picks followed by a duplicate-id pick that raises mid-removal) the deck is
empty and the field has 2 cards, yet the status is still "ongoing". -/
theorem status_counterexample :
    Reachable c6CrashRoom ∧ c6CrashRoom.status = "ongoing" ∧
    c6CrashRoom.deck = [] ∧ c6CrashRoom.field.length = 2 := by
  refine ⟨?_, by decide, by decide, by decide⟩
  exact runPicks_reachable _ _ (Reachable.step _ _
    (Reachable.init 0 initDeck (List.Perm.refl _)) (Step.join _ "p"))

/-- C7: a pick that returns matched = false leaves field and deck untouched;
a pick that returns matched = true removes exactly the three resolved cards
from the field (first occurrences), then deals from the deck tail until the
field holds 12 cards or the deck empties — the number dealt is exactly
`min (12 - |field after removal|) |deck|`, so dealing never pushes the field
past 12 — and the deck shrinks by exactly the number of cards dealt. -/
theorem pick_field_effect (r : GameRoom) (tok : String) (ids : List Nat) (s2 : Int) :
    ((pick_set r tok ids).1 = PickResult.ok false s2 →
      (pick_set r tok ids).2.field = r.field ∧ (pick_set r tok ids).2.deck = r.deck) ∧
    ((pick_set r tok ids).1 = PickResult.ok true s2 →
      ∃ i1 i2 i3 c1 c2 c3 dealt,
        ids = [i1, i2, i3] ∧
        get_card_by_id r i1 = some c1 ∧ get_card_by_id r i2 = some c2 ∧
        get_card_by_id r i3 = some c3 ∧
        (pick_set r tok ids).2.field = (((r.field.erase c1).erase c2).erase c3) ++ dealt ∧
        (((r.field.erase c1).erase c2).erase c3).length + 3 = r.field.length ∧
        dealt.length =
          min (12 - (((r.field.erase c1).erase c2).erase c3).length) r.deck.length ∧
        ((pick_set r tok ids).2.field.length ≤ 12 ∨ dealt = []) ∧
        r.deck = (pick_set r tok ids).2.deck ++ dealt.reverse ∧
        r.deck.length = (pick_set r tok ids).2.deck.length + dealt.length ∧
        ((pick_set r tok ids).2.field.length < 12 → (pick_set r tok ids).2.deck = [])) := by
  rcases pick_set_cases r tok ids with ⟨s3, hs3, heq, _⟩ | ⟨hn, hkey, _, _, _⟩ |
    ⟨i1, i2, i3, c1, c2, c3, hids, hg1, hg2, hg3, hrest⟩
  · constructor
    · intro _
      rw [heq]
      exact ⟨rfl, rfl⟩
    · intro hres
      rw [heq] at hres
      injection hres with hm _
      cases hm
  · constructor
    · intro hres
      rw [hres] at hkey
      cases hkey
    · intro hres
      rw [hres] at hkey
      cases hkey
  · subst hids
    rcases hrest with ⟨hv, s3, hs3, heq⟩ | ⟨hv, ⟨f2, hrm, heq⟩ | ⟨f1, hrm, s3, hs3, heq⟩⟩
    · constructor
      · intro _
        rw [heq]
        exact ⟨rfl, rfl⟩
      · intro hres
        rw [heq] at hres
        injection hres with hm _
        cases hm
    · constructor
      · intro hres
        rw [heq] at hres
        cases hres
      · intro hres
        rw [heq] at hres
        cases hres
    · have hf1 : f1 = ((r.field.erase c1).erase c2).erase c3 := removeSeq_ok_eq hrm
      have hlen3 := removeSeq_ok_length hrm
      simp only [List.length_cons, List.length_nil] at hlen3
      obtain ⟨dealt, hd1, hd2, hd3⟩ := refill_spec f1 r.deck
      constructor
      · intro hres
        rw [heq] at hres
        injection hres with hm _
        cases hm
      · intro _
        have h7 := refill_dealt_length f1 r.deck
        have h8 : (refill f1 r.deck).1.length = f1.length + dealt.length := by
          rw [hd1]
          simp
        have h9 : dealt.length = min (12 - f1.length) r.deck.length := by omega
        refine ⟨i1, i2, i3, c1, c2, c3, dealt, rfl, hg1, hg2, hg3, ?_, ?_, ?_, ?_, ?_, ?_, ?_⟩
        · rw [heq, ← hf1]
          exact hd1
        · rw [← hf1]
          omega
        · rw [← hf1]
          exact h9
        · by_cases h10 : f1.length < 12
          · refine Or.inl ?_
            rw [heq]
            show (refill f1 r.deck).1.length ≤ 12
            omega
          · refine Or.inr ?_
            have h11 : dealt.length = 0 := by omega
            exact List.length_eq_zero.mp h11
        · rw [heq]
          exact hd2
        · rw [heq]
          have h6 := congrArg List.length hd2
          simpa using h6
        · rw [heq]
          exact hd3

/-- Witness for C7: a rejected pick (wrong id count) leaves field and deck
unchanged on a fresh joined room. -/
theorem pick_field_effect_witness :
    (pick_set room0p "p" [1, 2]).2.field = room0p.field ∧
    (pick_set room0p "p" [1, 2]).2.deck = room0p.deck :=
  (pick_field_effect room0p "p" [1, 2] 0).1 (by decide)

end SetSrv
